import Mathlib

/-!
# Verification of the xzre x86-64 mini-disassembler core

The repository ships `xzre.h`, which declares the data model
(`dasm_ctx_t`, `elf_info_t`, the `DasmFlags` / `ModRm_Mod` / `FuncFindType`
enums, the `XZDASM_OPC` normalization macro) and the five operations
(`x86_dasm`, `find_call_instruction`, `find_lea_instruction`,
`find_function_prologue`, `elf_contains_segment`) as `extern` prototypes.
The operation bodies are not part of the source tree, so they are modelled
here from the specification's component design (spec.md §4), while the
data-model constants and the packed struct layout are taken directly from
the header.

Memory is modelled as a total function `Nat → Nat`; every read truncates
to a byte (`% 256`) and is guarded by the window end, so a model read can
never observe anything at or beyond `code_end`.
-/

namespace Xzre

/-! ## Data model from `xzre.h` -/

/-- `DasmFlags.DF_LOCK` from `xzre.h`: has lock prefix. -/
def DF_LOCK : Nat := 1
/-- `DasmFlags.DF_ESEG` from `xzre.h`: has es-segment override. -/
def DF_ESEG : Nat := 2
/-- `DasmFlags.DF_OSIZE` from `xzre.h`: has operand size override. -/
def DF_OSIZE : Nat := 4
/-- `DasmFlags.DF_ASIZE` from `xzre.h`: has address size override. -/
def DF_ASIZE : Nat := 8
/-- `DasmFlags.DF_REX` from `xzre.h`: has rex. -/
def DF_REX : Nat := 0x20

/-- `ModRm_Mod.MRM_I_REG`: register-indirect addressing or no displacement. -/
def MRM_I_REG : Nat := 0
/-- `ModRm_Mod.MRM_I_DISP1`: indirect with one byte displacement. -/
def MRM_I_DISP1 : Nat := 1
/-- `ModRm_Mod.MRM_I_DISP4`: indirect with four byte displacement. -/
def MRM_I_DISP4 : Nat := 2
/-- `ModRm_Mod.MRM_D_REG`: direct-register addressing. -/
def MRM_D_REG : Nat := 3

/-- `FuncFindType` from `xzre.h`: the two prologue search strategies. -/
inductive FuncFindType where
  | FIND_ENDBR64 : FuncFindType
  | FIND_NOP : FuncFindType
deriving DecidableEq, Repr

/-- `XZDASM_OPC(op)` from `xzre.h`: `(op - 0x80)` — the engine stores
opcodes with a constant `+0x80` bias, and this macro removes it. -/
def XZDASM_OPC (op : Nat) : Nat := op - 0x80

/-- The decoded-instruction state, the semantic fields of `dasm_ctx_t`
from `xzre.h` (the `_unk*` padding fields carry no meaning and are
modelled only in the layout description below). -/
structure dasm_ctx_t where
  first_instruction : Nat
  instruction_size : Nat
  flags : Nat
  rex_byte : Nat
  modrm : Nat
  modrm_mod : Nat
  modrm_reg : Nat
  modrm_rm : Nat
  opcode : Nat
  mem_disp : Nat
  operand : Nat
  insn_offset : Nat
deriving DecidableEq, Repr

/-- One program-header entry (the fields of `Elf64_Phdr` the segment
check consults). -/
structure Elf64_Phdr where
  p_type : Nat
  p_flags : Nat
  p_vaddr : Nat
  p_memsz : Nat
deriving DecidableEq, Repr

/-- `elf_info_t` from `xzre.h`: an already-mapped ELF image descriptor.
The program-header table is modelled as the list of its entries. -/
structure elf_info_t where
  first_vaddr : Nat
  phdrs : List Elf64_Phdr
deriving DecidableEq, Repr

/-- `PT_LOAD` program-header type. -/
def PT_LOAD : Nat := 1

/-! ## Packed layout of `dasm_ctx_t` (the `assert_offset` facts in `xzre.h`) -/

/-- The field list of the packed `dasm_ctx_t` struct from `xzre.h`,
in declaration order, with each field's byte size. -/
def dasmCtxFields : List (String × Nat) :=
  [("first_instruction", 8), ("instruction_size", 8), ("flags", 1),
   ("flags2", 1), ("_unk0", 2), ("lock_byte", 1), ("_unk1", 1),
   ("last_prefix", 1), ("_unk2", 4), ("rex_byte", 1), ("modrm", 1),
   ("modrm_mod", 1), ("modrm_reg", 1), ("modrm_rm", 1), ("_unk3", 4),
   ("byte_24", 1), ("_unk4", 3), ("opcode", 4), ("_unk5", 4),
   ("mem_disp", 8), ("operand", 8), ("_unk6", 16), ("insn_offset", 1),
   ("_unk8", 47)]

/-- Byte offset of a field in a packed struct: the sum of the sizes of
the fields declared before it (packed means no padding is inserted). -/
def layoutOffset : List (String × Nat) → String → Option Nat
  | [], _ => none
  | f :: rest, n =>
    if f.1 = n then some 0 else (layoutOffset rest n).map (· + f.2)

/-- Total byte size of a packed struct: the sum of all field sizes. -/
def layoutSize (l : List (String × Nat)) : Nat :=
  l.foldr (fun f acc => f.2 + acc) 0

/-! ## A window-bounded byte parser

`P α` consumes bytes from a memory `mem : Nat → Nat` between a cursor
and a window end `e`; a parser is a function of the window end and the
cursor, returning the parsed value and the new cursor, or `none`. -/

def P (α : Type) : Type := Nat → Nat → Option (α × Nat)

/-- Sequential composition of parsers. -/
def pbind {α β : Type} (p : P α) (f : α → P β) : P β := fun e pos =>
  match p e pos with
  | none => none
  | some r => f r.1 e r.2

/-- Parser returning a value without consuming input. -/
def ppure {α : Type} (a : α) : P α := fun _ pos => some (a, pos)

/-- The failing parser. -/
def pfail {α : Type} : P α := fun _ _ => none

/-- Read one byte at the cursor; fails if the cursor has reached the
window end, so no memory at or beyond `e` is ever consulted. -/
def pbyte (mem : Nat → Nat) : P Nat := fun e pos =>
  if pos < e then some (mem pos % 256, pos + 1) else none

/-- Report the current cursor without consuming input. -/
def ppos : P Nat := fun _ pos => some (pos, pos)

/-- Read a 4-byte little-endian value. -/
def p4 (mem : Nat → Nat) : P Nat :=
  pbind (pbyte mem) fun b0 =>
  pbind (pbyte mem) fun b1 =>
  pbind (pbyte mem) fun b2 =>
  pbind (pbyte mem) fun b3 =>
  ppure (b0 + b1 * 0x100 + b2 * 0x10000 + b3 * 0x1000000)

@[simp] theorem pbind_eq_some {α β : Type} {p : P α} {f : α → P β}
    {e pos : Nat} {r : β × Nat} :
    pbind p f e pos = some r ↔
      ∃ b q, p e pos = some (b, q) ∧ f b e q = some r := by
  unfold pbind
  cases h : p e pos with
  | none => simp
  | some a =>
    constructor
    · intro hf
      exact ⟨a.1, a.2, rfl, hf⟩
    · rintro ⟨b, q, hbq, hf⟩
      injection hbq with hbq
      subst hbq
      exact hf

@[simp] theorem ppure_eq_some {α : Type} {a : α} {e pos : Nat} {r : α × Nat} :
    ppure a e pos = some r ↔ r = (a, pos) := by
  unfold ppure
  exact ⟨fun h => (Option.some_inj.mp h).symm, fun h => by rw [h]⟩

@[simp] theorem pfail_eq_none {α : Type} {e pos : Nat} :
    (pfail : P α) e pos = none := rfl

@[simp] theorem pbyte_eq_some {mem : Nat → Nat} {e pos : Nat} {r : Nat × Nat} :
    pbyte mem e pos = some r ↔ pos < e ∧ r = (mem pos % 256, pos + 1) := by
  unfold pbyte
  split <;> simp_all [eq_comm]

@[simp] theorem ppos_eq_some {e pos : Nat} {r : Nat × Nat} :
    ppos e pos = some r ↔ r = (pos, pos) := by
  unfold ppos
  exact ⟨fun h => (Option.some_inj.mp h).symm, fun h => by rw [h]⟩

/-! ### Parser well-behavedness predicates -/

/-- Window monotonicity: success in a smaller window is preserved, with
the same result, in any larger window. -/
def PMono {α : Type} (p : P α) : Prop :=
  ∀ e₂ e pos r, e₂ ≤ e → p e₂ pos = some r → p e pos = some r

/-- Cursor bounds: a successful parse moves the cursor forward, and if
the cursor started inside the window it never leaves it. -/
def PBound {α : Type} (p : P α) : Prop :=
  ∀ e pos r, p e pos = some r → pos ≤ r.2 ∧ (pos ≤ e → r.2 ≤ e)

theorem pmono_pure {α : Type} (a : α) : PMono (ppure a) := by
  intro e₂ e pos r _ h
  simpa using h

theorem pbound_pure {α : Type} (a : α) : PBound (ppure a) := by
  intro e pos r h
  simp only [ppure_eq_some] at h
  subst h
  omega

theorem pmono_fail {α : Type} : PMono (pfail : P α) := by
  intro e₂ e pos r _ h
  simp at h

theorem pbound_fail {α : Type} : PBound (pfail : P α) := by
  intro e pos r h
  simp at h

theorem pmono_byte (mem : Nat → Nat) : PMono (pbyte mem) := by
  intro e₂ e pos r hle h
  simp only [pbyte_eq_some] at h ⊢
  exact ⟨lt_of_lt_of_le h.1 hle, h.2⟩

theorem pbound_byte (mem : Nat → Nat) : PBound (pbyte mem) := by
  intro e pos r h
  simp only [pbyte_eq_some] at h
  obtain ⟨hlt, hr⟩ := h
  subst hr
  omega

theorem pmono_pos : PMono ppos := by
  intro e₂ e pos r _ h
  simpa using h

theorem pbound_pos : PBound ppos := by
  intro e pos r h
  simp only [ppos_eq_some] at h
  subst h
  omega

theorem pmono_bind {α β : Type} {p : P α} {f : α → P β}
    (hp : PMono p) (hf : ∀ a, PMono (f a)) : PMono (pbind p f) := by
  intro e₂ e pos r hle h
  simp only [pbind_eq_some] at h ⊢
  obtain ⟨b, q, ha, hfa⟩ := h
  exact ⟨b, q, hp _ _ _ _ hle ha, hf b _ _ _ _ hle hfa⟩

theorem pbound_bind {α β : Type} {p : P α} {f : α → P β}
    (hp : PBound p) (hf : ∀ a, PBound (f a)) : PBound (pbind p f) := by
  intro e pos r h
  simp only [pbind_eq_some] at h
  obtain ⟨b, q, ha, hfa⟩ := h
  have h1 := hp _ _ _ ha
  have h2 := hf b _ _ _ hfa
  exact ⟨le_trans h1.1 h2.1, fun hpe => h2.2 (h1.2 hpe)⟩

theorem pmono_ite {α : Type} (c : Prop) [Decidable c] {p q : P α}
    (hp : PMono p) (hq : PMono q) : PMono (if c then p else q) := by
  split <;> assumption

theorem pbound_ite {α : Type} (c : Prop) [Decidable c] {p q : P α}
    (hp : PBound p) (hq : PBound q) : PBound (if c then p else q) := by
  split <;> assumption

theorem pmono_p4 (mem : Nat → Nat) : PMono (p4 mem) := by
  unfold p4
  exact pmono_bind (pmono_byte mem) fun _ =>
    pmono_bind (pmono_byte mem) fun _ =>
    pmono_bind (pmono_byte mem) fun _ =>
    pmono_bind (pmono_byte mem) fun _ => pmono_pure _

theorem pbound_p4 (mem : Nat → Nat) : PBound (p4 mem) := by
  unfold p4
  exact pbound_bind (pbound_byte mem) fun _ =>
    pbound_bind (pbound_byte mem) fun _ =>
    pbound_bind (pbound_byte mem) fun _ =>
    pbound_bind (pbound_byte mem) fun _ => pbound_pure _

/-- Frame property of a memory-parameterized parser: its outcome depends
only on the memory cells in `[pos, e)` — it never reads at or beyond the
window end, nor below the cursor. -/
def PFrame {α : Type} (g : (Nat → Nat) → P α) : Prop :=
  ∀ mem₁ mem₂ e pos, (∀ q, pos ≤ q → q < e → mem₁ q = mem₂ q) →
    g mem₁ e pos = g mem₂ e pos

theorem pframe_pure {α : Type} (a : α) : PFrame (fun _ => ppure a) := by
  intro mem₁ mem₂ e pos _
  rfl

theorem pframe_fail {α : Type} : PFrame (fun _ => (pfail : P α)) := by
  intro mem₁ mem₂ e pos _
  rfl

theorem pframe_pos : PFrame (fun _ => ppos) := by
  intro mem₁ mem₂ e pos _
  rfl

theorem pframe_byte : PFrame pbyte := by
  intro mem₁ mem₂ e pos hagree
  unfold pbyte
  split
  · rw [hagree pos le_rfl (by assumption)]
  · rfl

theorem pframe_bind {α β : Type} {g : (Nat → Nat) → P α}
    {f : (Nat → Nat) → α → P β}
    (hg : PFrame g) (hb : ∀ mem, PBound (g mem))
    (hf : ∀ a, PFrame (fun mem => f mem a)) :
    PFrame (fun mem => pbind (g mem) (f mem)) := by
  intro mem₁ mem₂ e pos hagree
  simp only [pbind]
  rw [hg mem₁ mem₂ e pos hagree]
  cases h : g mem₂ e pos with
  | none => rfl
  | some a =>
    have hbound := (hb mem₂) _ _ _ h
    exact hf a.1 mem₁ mem₂ e a.2 fun q hq1 hq2 =>
      hagree q (le_trans hbound.1 hq1) hq2

theorem pframe_ite {α : Type} (c : Prop) [Decidable c]
    {g h : (Nat → Nat) → P α} (hg : PFrame g) (hh : PFrame h) :
    PFrame (fun mem => if c then g mem else h mem) := by
  split <;> assumption

theorem pframe_p4 : PFrame p4 := by
  unfold p4
  exact pframe_bind pframe_byte pbound_byte fun _ =>
    pframe_bind pframe_byte pbound_byte fun _ =>
    pframe_bind pframe_byte pbound_byte fun _ =>
    pframe_bind pframe_byte pbound_byte fun _ => pframe_pure _

/-! ## The instruction decoder (`x86_dasm`)

Modelled from the spec: the body of `x86_dasm` is not in `src/` (it is
an `extern` prototype in `xzre.h`); the decode pipeline below follows
spec.md §4.1 — recognized legacy prefixes (lock, es-segment override,
operand-size override, address-size override), an optional REX prefix,
the recognized opcode subset (near call `E8`, far call `9A`,
unconditional jumps `E9`/`EB`, LEA `8D`, the `endbr64` landing-pad
sequence `F3 0F 1E FA`, NOP forms `90` and `0F 1F /r`), a ModRM byte
when the opcode requires one, a SIB byte when ModRM addressing requires
it, a displacement of 0/1/4 bytes by ModRM mode, and an operand sized
per opcode. Opcodes are stored with the engine's uniform `+0x80` bias
(the `XZDASM_OPC` obfuscation noted in `xzre.h`). -/

/-- Sign-extend a byte into the 64-bit unsigned domain. -/
def sext8 (b : Nat) : Nat := if b < 0x80 then b else b + (2 ^ 64 - 0x100)

/-- Sign-extend a 32-bit value into the 64-bit unsigned domain. -/
def sext32 (v : Nat) : Nat :=
  if v < 0x80000000 then v else v + (2 ^ 64 - 0x100000000)

/-- The `DasmFlags` bit a recognized legacy prefix byte contributes:
`F0` lock, `26` es-segment override, `66` operand-size override,
`67` address-size override; `none` for a non-prefix byte. -/
def pfxFlag (b : Nat) : Option Nat :=
  if b = 0xF0 then some DF_LOCK
  else if b = 0x26 then some DF_ESEG
  else if b = 0x66 then some DF_OSIZE
  else if b = 0x67 then some DF_ASIZE
  else none

/-- Legacy-prefix loop: consume recognized prefix bytes, accumulating
`DasmFlags`, and return the accumulated flags together with the first
non-prefix byte (consumed). The fuel is instantiated with the window
size, so exhaustion coincides with running off the window end. -/
def pfxLoop (mem : Nat → Nat) : Nat → Nat → P (Nat × Nat)
  | 0, _ => pfail
  | fuel + 1, acc =>
    pbind (pbyte mem) fun b =>
      match pfxFlag b with
      | some fl => pfxLoop mem fuel (acc ||| fl)
      | none => ppure (acc, b)

/-- ModRM parsing: the ModRM byte, a SIB byte when indirect addressing
with `rm = 100` requires one, and a displacement of 0/1/4 bytes selected
by the ModRM mode; returns the raw ModRM byte and the sign-extended
displacement. -/
def modrmStage (mem : Nat → Nat) : P (Nat × Nat) :=
  pbind (pbyte mem) fun m =>
  pbind (if m / 64 ≠ MRM_D_REG ∧ m % 8 = 4 then
           pbind (pbyte mem) fun _ => ppure 0
         else ppure 0) fun _ =>
  pbind (if m / 64 = MRM_I_DISP1 then pbind (pbyte mem) fun d => ppure (sext8 d)
         else if m / 64 = MRM_I_DISP4 then pbind (p4 mem) fun d => ppure (sext32 d)
         else ppure 0) fun disp =>
  ppure (m, disp)

/-- Assemble the decoded-instruction state: the final cursor fixes
`instruction_size`, the ModRM byte is decomposed into its mod/reg/rm bit
fields, and the opcode is stored with the `+0x80` bias. -/
def finishCtx (s flags rex modrm disp oper opPos op : Nat) : P dasm_ctx_t :=
  pbind ppos fun endPos =>
    ppure { first_instruction := s
            instruction_size := endPos - s
            flags := flags
            rex_byte := rex
            modrm := modrm
            modrm_mod := modrm / 64
            modrm_reg := modrm / 8 % 8
            modrm_rm := modrm % 8
            opcode := op + 0x80
            mem_disp := disp
            operand := oper
            insn_offset := opPos - s }

/-- Opcode dispatch over the recognized subset (spec.md §4.1): anything
else is a decode failure. -/
def dispatch (mem : Nat → Nat) (s flags rex op opPos : Nat) : P dasm_ctx_t :=
  if op = 0x90 then finishCtx s flags rex 0 0 0 opPos op
  else if op = 0xE8 then
    pbind (p4 mem) fun v => finishCtx s flags rex 0 0 (sext32 v) opPos op
  else if op = 0xE9 then
    pbind (p4 mem) fun v => finishCtx s flags rex 0 0 (sext32 v) opPos op
  else if op = 0xEB then
    pbind (pbyte mem) fun v => finishCtx s flags rex 0 0 (sext8 v) opPos op
  else if op = 0x9A then
    pbind (p4 mem) fun v => finishCtx s flags rex 0 0 v opPos op
  else if op = 0x8D then
    pbind (modrmStage mem) fun md => finishCtx s flags rex md.1 md.2 0 opPos op
  else if op = 0x0F then
    pbind (pbyte mem) fun b2 =>
      if b2 = 0x1F then
        pbind (modrmStage mem) fun md => finishCtx s flags rex md.1 md.2 0 opPos op
      else pfail
  else if op = 0xF3 then
    pbind (pbyte mem) fun b1 =>
    pbind (pbyte mem) fun b2 =>
    pbind (pbyte mem) fun b3 =>
      if b1 = 0x0F ∧ b2 = 0x1E ∧ b3 = 0xFA then
        finishCtx s flags rex 0 0 0 opPos op
      else pfail
  else pfail

/-- After the prefix loop handed back `(flags, b)`: treat `b` in
`[0x40, 0x4F]` as a REX prefix (recording it and reading the opcode
byte next), otherwise `b` itself is the opcode byte; then dispatch.
The cursor sits one past the opcode byte, which fixes `insn_offset`. -/
def dasmTail (mem : Nat → Nat) (s : Nat) (fb : Nat × Nat) : P dasm_ctx_t :=
  pbind (if 0x40 ≤ fb.2 ∧ fb.2 ≤ 0x4F then
           pbind (pbyte mem) fun op => ppure (fb.1 ||| DF_REX, fb.2, op)
         else ppure (fb.1, 0, fb.2)) fun fro =>
  pbind ppos fun posAfterOp =>
    dispatch mem s fro.1 fro.2.1 fro.2.2 (posAfterOp - 1)

/-- Modelled from the spec: `x86_dasm` (extern in `xzre.h`) — decode one
instruction from the window `[code_start, code_end)`, per spec.md §4.1. -/
def x86_dasm (mem : Nat → Nat) (code_start code_end : Nat) : Option dasm_ctx_t :=
  Option.map Prod.fst
    (pbind (pfxLoop mem (code_end - code_start) 0) (dasmTail mem code_start)
      code_end code_start)

/-! ## Lemmas about the prefix loop -/

theorem pfxLoop_mono (mem : Nat → Nat) :
    ∀ fuel₂ fuel acc e₂ e pos r, fuel₂ ≤ fuel → e₂ ≤ e →
      pfxLoop mem fuel₂ acc e₂ pos = some r →
      pfxLoop mem fuel acc e pos = some r := by
  intro fuel₂
  induction fuel₂ with
  | zero =>
    intro fuel acc e₂ e pos r _ _ h
    simp [pfxLoop] at h
  | succ k ih =>
    intro fuel acc e₂ e pos r hf hle h
    obtain ⟨m, rfl⟩ : ∃ m, fuel = m + 1 := ⟨fuel - 1, by omega⟩
    simp only [pfxLoop, pbind_eq_some, pbyte_eq_some, Prod.mk.injEq] at h ⊢
    obtain ⟨b, q, ⟨hlt, hb, hq⟩, htail⟩ := h
    subst hb
    subst hq
    refine ⟨mem pos % 256, pos + 1, ⟨by omega, rfl, rfl⟩, ?_⟩
    cases hfl : pfxFlag (mem pos % 256) with
    | none => rw [hfl] at htail; exact htail
    | some fl =>
      rw [hfl] at htail
      exact ih m _ _ _ _ _ (by omega) hle htail

theorem pfxLoop_bound (mem : Nat → Nat) :
    ∀ fuel acc e pos r, pfxLoop mem fuel acc e pos = some r →
      pos + 1 ≤ r.2 ∧ r.2 ≤ e := by
  intro fuel
  induction fuel with
  | zero =>
    intro acc e pos r h
    simp [pfxLoop] at h
  | succ k ih =>
    intro acc e pos r h
    simp only [pfxLoop, pbind_eq_some, pbyte_eq_some, Prod.mk.injEq] at h
    obtain ⟨b, q, ⟨hlt, hb, hq⟩, htail⟩ := h
    subst hb
    subst hq
    cases hfl : pfxFlag (mem pos % 256) with
    | none =>
      rw [hfl] at htail
      have hr : r = ((acc, mem pos % 256), pos + 1) := by
        simpa using htail
      subst hr
      exact ⟨le_refl _, show pos + 1 ≤ e by omega⟩
    | some fl =>
      rw [hfl] at htail
      have := ih _ _ _ _ htail
      omega

theorem pfxLoop_frame (mem₁ mem₂ : Nat → Nat) :
    ∀ fuel acc e pos, (∀ q, pos ≤ q → q < e → mem₁ q = mem₂ q) →
      pfxLoop mem₁ fuel acc e pos = pfxLoop mem₂ fuel acc e pos := by
  intro fuel
  induction fuel with
  | zero => intro acc e pos _; rfl
  | succ k ih =>
    intro acc e pos hagree
    simp only [pfxLoop, pbind, pbyte]
    by_cases hlt : pos < e
    · simp only [if_pos hlt, hagree pos le_rfl hlt]
      cases hfl : pfxFlag (mem₂ pos % 256) with
      | none => rfl
      | some fl =>
        exact ih _ _ _ fun q hq1 hq2 => hagree q (by omega) hq2
    · simp only [if_neg hlt]

theorem pfxLoop_lastByte (mem : Nat → Nat) :
    ∀ fuel acc e pos r, pfxLoop mem fuel acc e pos = some r →
      r.1.2 = mem (r.2 - 1) % 256 := by
  intro fuel
  induction fuel with
  | zero =>
    intro acc e pos r h
    simp [pfxLoop] at h
  | succ k ih =>
    intro acc e pos r h
    simp only [pfxLoop, pbind_eq_some, pbyte_eq_some, Prod.mk.injEq] at h
    obtain ⟨b, q, ⟨hlt, hb, hq⟩, htail⟩ := h
    subst hb
    subst hq
    cases hfl : pfxFlag (mem pos % 256) with
    | none =>
      rw [hfl] at htail
      have hr : r = ((acc, mem pos % 256), pos + 1) := by simpa using htail
      subst hr
      simp
    | some fl =>
      rw [hfl] at htail
      exact ih _ _ _ _ htail

/-! ## Well-behavedness of the decode stages -/

theorem pmono_modrm (mem : Nat → Nat) : PMono (modrmStage mem) := by
  unfold modrmStage
  refine pmono_bind (pmono_byte mem) fun m => ?_
  refine pmono_bind (pmono_ite _ (pmono_bind (pmono_byte mem) fun _ =>
    pmono_pure _) (pmono_pure _)) fun _ => ?_
  refine pmono_bind (pmono_ite _ (pmono_bind (pmono_byte mem) fun _ =>
    pmono_pure _) (pmono_ite _ (pmono_bind (pmono_p4 mem) fun _ =>
      pmono_pure _) (pmono_pure _))) fun _ => ?_
  exact pmono_pure _

theorem pbound_modrm (mem : Nat → Nat) : PBound (modrmStage mem) := by
  unfold modrmStage
  refine pbound_bind (pbound_byte mem) fun m => ?_
  refine pbound_bind (pbound_ite _ (pbound_bind (pbound_byte mem) fun _ =>
    pbound_pure _) (pbound_pure _)) fun _ => ?_
  refine pbound_bind (pbound_ite _ (pbound_bind (pbound_byte mem) fun _ =>
    pbound_pure _) (pbound_ite _ (pbound_bind (pbound_p4 mem) fun _ =>
      pbound_pure _) (pbound_pure _))) fun _ => ?_
  exact pbound_pure _

theorem pframe_modrm : PFrame modrmStage := by
  unfold modrmStage
  refine pframe_bind pframe_byte pbound_byte fun m => ?_
  refine pframe_bind (pframe_ite _ (pframe_bind pframe_byte pbound_byte
    fun _ => pframe_pure _) (pframe_pure _)) ?_ fun _ => ?_
  · intro mem
    exact pbound_ite _ (pbound_bind (pbound_byte mem) fun _ =>
      pbound_pure _) (pbound_pure _)
  refine pframe_bind (pframe_ite _ (pframe_bind pframe_byte pbound_byte
    fun _ => pframe_pure _) (pframe_ite _ (pframe_bind pframe_p4 pbound_p4
      fun _ => pframe_pure _) (pframe_pure _))) ?_ fun _ => ?_
  · intro mem
    exact pbound_ite _ (pbound_bind (pbound_byte mem) fun _ =>
      pbound_pure _) (pbound_ite _ (pbound_bind (pbound_p4 mem) fun _ =>
        pbound_pure _) (pbound_pure _))
  exact pframe_pure _

theorem pmono_finish (s flags rex modrm disp oper opPos op : Nat) :
    PMono (finishCtx s flags rex modrm disp oper opPos op) := by
  unfold finishCtx
  exact pmono_bind pmono_pos fun _ => pmono_pure _

theorem pbound_finish (s flags rex modrm disp oper opPos op : Nat) :
    PBound (finishCtx s flags rex modrm disp oper opPos op) := by
  unfold finishCtx
  exact pbound_bind pbound_pos fun _ => pbound_pure _

theorem pframe_finish (s flags rex modrm disp oper opPos op : Nat) :
    PFrame (fun _ => finishCtx s flags rex modrm disp oper opPos op) := by
  unfold finishCtx
  exact pframe_bind pframe_pos (fun _ => pbound_pos) fun _ => pframe_pure _

theorem pmono_dispatch (mem : Nat → Nat) (s flags rex op opPos : Nat) :
    PMono (dispatch mem s flags rex op opPos) := by
  unfold dispatch
  refine pmono_ite _ (pmono_finish _ _ _ _ _ _ _ _) ?_
  refine pmono_ite _ (pmono_bind (pmono_p4 mem) fun _ =>
    pmono_finish _ _ _ _ _ _ _ _) ?_
  refine pmono_ite _ (pmono_bind (pmono_p4 mem) fun _ =>
    pmono_finish _ _ _ _ _ _ _ _) ?_
  refine pmono_ite _ (pmono_bind (pmono_byte mem) fun _ =>
    pmono_finish _ _ _ _ _ _ _ _) ?_
  refine pmono_ite _ (pmono_bind (pmono_p4 mem) fun _ =>
    pmono_finish _ _ _ _ _ _ _ _) ?_
  refine pmono_ite _ (pmono_bind (pmono_modrm mem) fun _ =>
    pmono_finish _ _ _ _ _ _ _ _) ?_
  refine pmono_ite _ (pmono_bind (pmono_byte mem) fun b2 =>
    pmono_ite _ (pmono_bind (pmono_modrm mem) fun _ =>
      pmono_finish _ _ _ _ _ _ _ _) pmono_fail) ?_
  refine pmono_ite _ (pmono_bind (pmono_byte mem) fun b1 =>
    pmono_bind (pmono_byte mem) fun b2 =>
    pmono_bind (pmono_byte mem) fun b3 =>
    pmono_ite _ (pmono_finish _ _ _ _ _ _ _ _) pmono_fail) ?_
  exact pmono_fail

theorem pbound_dispatch (mem : Nat → Nat) (s flags rex op opPos : Nat) :
    PBound (dispatch mem s flags rex op opPos) := by
  unfold dispatch
  refine pbound_ite _ (pbound_finish _ _ _ _ _ _ _ _) ?_
  refine pbound_ite _ (pbound_bind (pbound_p4 mem) fun _ =>
    pbound_finish _ _ _ _ _ _ _ _) ?_
  refine pbound_ite _ (pbound_bind (pbound_p4 mem) fun _ =>
    pbound_finish _ _ _ _ _ _ _ _) ?_
  refine pbound_ite _ (pbound_bind (pbound_byte mem) fun _ =>
    pbound_finish _ _ _ _ _ _ _ _) ?_
  refine pbound_ite _ (pbound_bind (pbound_p4 mem) fun _ =>
    pbound_finish _ _ _ _ _ _ _ _) ?_
  refine pbound_ite _ (pbound_bind (pbound_modrm mem) fun _ =>
    pbound_finish _ _ _ _ _ _ _ _) ?_
  refine pbound_ite _ (pbound_bind (pbound_byte mem) fun b2 =>
    pbound_ite _ (pbound_bind (pbound_modrm mem) fun _ =>
      pbound_finish _ _ _ _ _ _ _ _) pbound_fail) ?_
  refine pbound_ite _ (pbound_bind (pbound_byte mem) fun b1 =>
    pbound_bind (pbound_byte mem) fun b2 =>
    pbound_bind (pbound_byte mem) fun b3 =>
    pbound_ite _ (pbound_finish _ _ _ _ _ _ _ _) pbound_fail) ?_
  exact pbound_fail

theorem pframe_dispatch (s flags rex op opPos : Nat) :
    PFrame (fun mem => dispatch mem s flags rex op opPos) := by
  unfold dispatch
  refine pframe_ite _ (pframe_finish _ _ _ _ _ _ _ _) ?_
  refine pframe_ite _ (pframe_bind pframe_p4 pbound_p4 fun _ =>
    pframe_finish _ _ _ _ _ _ _ _) ?_
  refine pframe_ite _ (pframe_bind pframe_p4 pbound_p4 fun _ =>
    pframe_finish _ _ _ _ _ _ _ _) ?_
  refine pframe_ite _ (pframe_bind pframe_byte pbound_byte fun _ =>
    pframe_finish _ _ _ _ _ _ _ _) ?_
  refine pframe_ite _ (pframe_bind pframe_p4 pbound_p4 fun _ =>
    pframe_finish _ _ _ _ _ _ _ _) ?_
  refine pframe_ite _ (pframe_bind pframe_modrm pbound_modrm fun _ =>
    pframe_finish _ _ _ _ _ _ _ _) ?_
  refine pframe_ite _ (pframe_bind pframe_byte pbound_byte fun b2 =>
    pframe_ite _ (pframe_bind pframe_modrm pbound_modrm fun _ =>
      pframe_finish _ _ _ _ _ _ _ _) pframe_fail) ?_
  refine pframe_ite _ (pframe_bind pframe_byte pbound_byte fun b1 =>
    pframe_bind pframe_byte pbound_byte fun b2 =>
    pframe_bind pframe_byte pbound_byte fun b3 =>
    pframe_ite _ (pframe_finish _ _ _ _ _ _ _ _) pframe_fail) ?_
  exact pframe_fail

theorem pmono_dasmTail (mem : Nat → Nat) (s : Nat) (fb : Nat × Nat) :
    PMono (dasmTail mem s fb) := by
  unfold dasmTail
  refine pmono_bind (pmono_ite _ (pmono_bind (pmono_byte mem) fun _ =>
    pmono_pure _) (pmono_pure _)) fun fro => ?_
  exact pmono_bind pmono_pos fun posAfterOp => pmono_dispatch mem s _ _ _ _

theorem pbound_dasmTail (mem : Nat → Nat) (s : Nat) (fb : Nat × Nat) :
    PBound (dasmTail mem s fb) := by
  unfold dasmTail
  refine pbound_bind (pbound_ite _ (pbound_bind (pbound_byte mem) fun _ =>
    pbound_pure _) (pbound_pure _)) fun fro => ?_
  exact pbound_bind pbound_pos fun posAfterOp => pbound_dispatch mem s _ _ _ _

theorem pframe_dasmTail (s : Nat) (fb : Nat × Nat) :
    PFrame (fun mem => dasmTail mem s fb) := by
  unfold dasmTail
  refine pframe_bind (pframe_ite _ (pframe_bind pframe_byte pbound_byte
    fun _ => pframe_pure _) (pframe_pure _)) ?_ fun fro => ?_
  · intro mem
    exact pbound_ite _ (pbound_bind (pbound_byte mem) fun _ =>
      pbound_pure _) (pbound_pure _)
  exact pframe_bind pframe_pos (fun _ => pbound_pos) fun posAfterOp =>
    pframe_dispatch s _ _ _ _

/-! ## Field characterization of the decode stages -/

/-- The fields `finishCtx` writes, in terms of its arguments and the
final cursor. -/
theorem finish_fields {s flags rex modrm disp oper opPos op e pos : Nat}
    {r : dasm_ctx_t × Nat}
    (h : finishCtx s flags rex modrm disp oper opPos op e pos = some r) :
    r.1.first_instruction = s ∧ r.1.instruction_size = r.2 - s ∧
    r.1.opcode = op + 0x80 ∧ r.1.insn_offset = opPos - s ∧
    r.1.modrm_mod = r.1.modrm / 64 ∧ r.1.modrm_reg = r.1.modrm / 8 % 8 ∧
    r.1.modrm_rm = r.1.modrm % 8 ∧ r.1.modrm = modrm := by
  unfold finishCtx at h
  simp only [pbind_eq_some, ppos_eq_some, ppure_eq_some, Prod.mk.injEq] at h
  obtain ⟨b, q, ⟨hb, hq⟩, hr⟩ := h
  subst hb
  subst hq
  subst hr
  exact ⟨rfl, rfl, rfl, rfl, rfl, rfl, rfl, rfl⟩

/-- The ModRM byte returned by `modrmStage` is the (truncated) byte read
at the entry cursor. -/
theorem modrm_byte_val {mem : Nat → Nat} {e pos : Nat} {r : (Nat × Nat) × Nat}
    (h : modrmStage mem e pos = some r) : r.1.1 = mem pos % 256 := by
  unfold modrmStage at h
  simp only [pbind_eq_some, pbyte_eq_some, Prod.mk.injEq] at h
  obtain ⟨b, q, ⟨_, hb, hq⟩, h⟩ := h
  subst hb
  subst hq
  obtain ⟨u, q2, _, h⟩ := h
  obtain ⟨d, q3, _, h⟩ := h
  simp only [ppure_eq_some] at h
  subst h
  rfl

/-- The fields `dispatch` writes for every recognized opcode. -/
theorem dispatch_spec {mem : Nat → Nat} {s flags rex op opPos e pos : Nat}
    {r : dasm_ctx_t × Nat}
    (h : dispatch mem s flags rex op opPos e pos = some r) :
    r.1.first_instruction = s ∧ r.1.instruction_size = r.2 - s ∧
    r.1.opcode = op + 0x80 ∧ r.1.insn_offset = opPos - s ∧
    r.1.modrm_mod = r.1.modrm / 64 ∧ r.1.modrm_reg = r.1.modrm / 8 % 8 ∧
    r.1.modrm_rm = r.1.modrm % 8 ∧ r.1.modrm < 256 := by
  unfold dispatch at h
  split at h
  · obtain ⟨h1, h2, h3, h4, h5, h6, h7, h8⟩ := finish_fields h
    exact ⟨h1, h2, h3, h4, h5, h6, h7, by rw [h8]; norm_num⟩
  · split at h
    · simp only [pbind_eq_some] at h
      obtain ⟨v, q, _, hf⟩ := h
      obtain ⟨h1, h2, h3, h4, h5, h6, h7, h8⟩ := finish_fields hf
      exact ⟨h1, h2, h3, h4, h5, h6, h7, by rw [h8]; norm_num⟩
    · split at h
      · simp only [pbind_eq_some] at h
        obtain ⟨v, q, _, hf⟩ := h
        obtain ⟨h1, h2, h3, h4, h5, h6, h7, h8⟩ := finish_fields hf
        exact ⟨h1, h2, h3, h4, h5, h6, h7, by rw [h8]; norm_num⟩
      · split at h
        · simp only [pbind_eq_some] at h
          obtain ⟨v, q, _, hf⟩ := h
          obtain ⟨h1, h2, h3, h4, h5, h6, h7, h8⟩ := finish_fields hf
          exact ⟨h1, h2, h3, h4, h5, h6, h7, by rw [h8]; norm_num⟩
        · split at h
          · simp only [pbind_eq_some] at h
            obtain ⟨v, q, _, hf⟩ := h
            obtain ⟨h1, h2, h3, h4, h5, h6, h7, h8⟩ := finish_fields hf
            exact ⟨h1, h2, h3, h4, h5, h6, h7, by rw [h8]; norm_num⟩
          · split at h
            · simp only [pbind_eq_some] at h
              obtain ⟨md, q, hmd, hf⟩ := h
              obtain ⟨h1, h2, h3, h4, h5, h6, h7, h8⟩ := finish_fields hf
              refine ⟨h1, h2, h3, h4, h5, h6, h7, ?_⟩
              rw [h8, modrm_byte_val hmd]
              exact Nat.mod_lt _ (by norm_num)
            · split at h
              · simp only [pbind_eq_some] at h
                obtain ⟨b2, q, _, h⟩ := h
                split at h
                · simp only [pbind_eq_some] at h
                  obtain ⟨md, q2, hmd, hf⟩ := h
                  obtain ⟨h1, h2, h3, h4, h5, h6, h7, h8⟩ := finish_fields hf
                  refine ⟨h1, h2, h3, h4, h5, h6, h7, ?_⟩
                  rw [h8, modrm_byte_val hmd]
                  exact Nat.mod_lt _ (by norm_num)
                · simp at h
              · split at h
                · simp only [pbind_eq_some] at h
                  obtain ⟨b1, q1, _, h⟩ := h
                  obtain ⟨b2, q2, _, h⟩ := h
                  obtain ⟨b3, q3, _, h⟩ := h
                  split at h
                  · obtain ⟨h1, h2, h3, h4, h5, h6, h7, h8⟩ := finish_fields h
                    exact ⟨h1, h2, h3, h4, h5, h6, h7, by rw [h8]; norm_num⟩
                  · simp at h
                · simp at h

/-- The fields `dasmTail` writes: layout facts plus the provenance of
the stored opcode (either freshly read after a REX prefix, or the byte
handed over by the prefix loop). -/
theorem dasmTail_spec {mem : Nat → Nat} {s : Nat} {fb : Nat × Nat}
    {e pos : Nat} {r : dasm_ctx_t × Nat}
    (h : dasmTail mem s fb e pos = some r) :
    r.1.first_instruction = s ∧ r.1.instruction_size = r.2 - s ∧
    r.1.modrm_mod = r.1.modrm / 64 ∧ r.1.modrm_reg = r.1.modrm / 8 % 8 ∧
    r.1.modrm_rm = r.1.modrm % 8 ∧ r.1.modrm < 256 ∧
    ((pos < e ∧ r.1.opcode = mem pos % 256 + 0x80 ∧
        r.1.insn_offset = pos - s) ∨
      (r.1.opcode = fb.2 + 0x80 ∧ r.1.insn_offset = pos - 1 - s)) := by
  unfold dasmTail at h
  simp only [pbind_eq_some] at h
  obtain ⟨fro, q, hhead, h⟩ := h
  obtain ⟨pa, q2, hpa, h⟩ := h
  simp only [ppos_eq_some, Prod.mk.injEq] at hpa
  obtain ⟨hpa1, hpa2⟩ := hpa
  subst hpa1
  subst hpa2
  split at hhead
  · simp only [pbind_eq_some, pbyte_eq_some, ppure_eq_some, Prod.mk.injEq] at hhead
    obtain ⟨b, q3, ⟨hlt, hb, hq3⟩, hfro, hq⟩ := hhead
    subst hb
    subst hq3
    subst hfro
    subst hq
    obtain ⟨h1, h2, h3, h4, h5, h6, h7, h8⟩ := dispatch_spec h
    exact ⟨h1, h2, h5, h6, h7, h8, Or.inl ⟨hlt, h3, by simpa using h4⟩⟩
  · simp only [ppure_eq_some, Prod.mk.injEq] at hhead
    obtain ⟨hfro, hq⟩ := hhead
    subst hfro
    subst hq
    obtain ⟨h1, h2, h3, h4, h5, h6, h7, h8⟩ := dispatch_spec h
    exact ⟨h1, h2, h5, h6, h7, h8, Or.inr ⟨h3, h4⟩⟩

/-! ## The main decoder lemmas -/

/-- Window monotonicity of the full decoder: a successful decode in a
smaller window succeeds identically in any larger window. -/
theorem x86_dasm_mono {mem : Nat → Nat} {s e₂ e : Nat} {ctx : dasm_ctx_t}
    (hle : e₂ ≤ e) (h : x86_dasm mem s e₂ = some ctx) :
    x86_dasm mem s e = some ctx := by
  unfold x86_dasm at h ⊢
  rw [Option.map_eq_some'] at h ⊢
  obtain ⟨r, hm, hr⟩ := h
  refine ⟨r, ?_, hr⟩
  simp only [pbind_eq_some] at hm ⊢
  obtain ⟨b, q, hpfx, htail⟩ := hm
  exact ⟨b, q, pfxLoop_mono mem _ _ _ _ _ _ _ (by omega) hle hpfx,
    pmono_dasmTail mem s b _ _ _ _ hle htail⟩

/-- The decoder reads only the window `[code_start, code_end)`: its
outcome is unchanged under any modification of memory outside it. -/
theorem x86_dasm_frame {mem₁ mem₂ : Nat → Nat} {s e : Nat}
    (hagree : ∀ q, s ≤ q → q < e → mem₁ q = mem₂ q) :
    x86_dasm mem₁ s e = x86_dasm mem₂ s e := by
  unfold x86_dasm
  simp only [pbind]
  rw [pfxLoop_frame mem₁ mem₂ (e - s) 0 e s hagree]
  cases hm : pfxLoop mem₂ (e - s) 0 e s with
  | none => rfl
  | some a =>
    have hb := pfxLoop_bound mem₂ _ _ _ _ _ hm
    have heq : dasmTail mem₁ s a.1 e a.2 = dasmTail mem₂ s a.1 e a.2 :=
      pframe_dasmTail s a.1 mem₁ mem₂ e a.2 fun q hq1 hq2 =>
        hagree q (by omega) hq2
    show Option.map Prod.fst (dasmTail mem₁ s a.1 e a.2) =
      Option.map Prod.fst (dasmTail mem₂ s a.1 e a.2)
    rw [heq]

/-- Full success characterization of the decoder: the instruction is
recorded at the window start, is nonempty, lies inside the window, its
ModRM fields decompose the stored ModRM byte, and the stored opcode is
the buffer byte at `insn_offset` plus the `0x80` bias. -/
theorem x86_dasm_spec {mem : Nat → Nat} {s e : Nat} {ctx : dasm_ctx_t}
    (h : x86_dasm mem s e = some ctx) :
    ctx.first_instruction = s ∧ 1 ≤ ctx.instruction_size ∧
    s + ctx.instruction_size ≤ e ∧
    ctx.modrm_mod = ctx.modrm / 64 ∧ ctx.modrm_reg = ctx.modrm / 8 % 8 ∧
    ctx.modrm_rm = ctx.modrm % 8 ∧ ctx.modrm < 256 ∧
    ∃ opPos, s ≤ opPos ∧ opPos < e ∧ ctx.insn_offset = opPos - s ∧
      ctx.opcode = mem opPos % 256 + 0x80 := by
  unfold x86_dasm at h
  rw [Option.map_eq_some'] at h
  obtain ⟨r, hm, hr⟩ := h
  subst hr
  simp only [pbind_eq_some] at hm
  obtain ⟨b, q, hpfx, htail⟩ := hm
  have hb := pfxLoop_bound mem _ _ _ _ _ hpfx
  have hlast := pfxLoop_lastByte mem _ _ _ _ _ hpfx
  have ht := pbound_dasmTail mem s b _ _ _ htail
  obtain ⟨h1, h2, h3, h4, h5, h6, hop⟩ := dasmTail_spec htail
  have hr2e : r.2 ≤ e := ht.2 (by omega)
  have hr2q : q ≤ r.2 := ht.1
  refine ⟨h1, by omega, by omega, h3, h4, h5, h6, ?_⟩
  rcases hop with ⟨hlt, hopc, hoff⟩ | ⟨hopc, hoff⟩
  · exact ⟨q, by omega, hlt, hoff, hopc⟩
  · refine ⟨q - 1, by omega, by omega, hoff, ?_⟩
    rw [hopc, hlast]

/-! ## Opcode classification and the scanners

Modelled from the spec: the scanner bodies are not in `src/` (extern
prototypes in `xzre.h`); spec.md §4.2–§4.4. A scanner decodes at the
cursor, advances by the decoded length, treats a decode failure as
end-of-search (the spec's documented default policy), and stops at the
first match. -/

/-- Opcode-class test for {near call, far call}, using the engine's
`XZDASM_OPC` normalization (raw opcodes `E8` and `9A`). -/
def isCallOpcode (ctx : dasm_ctx_t) : Bool :=
  XZDASM_OPC ctx.opcode == 0xE8 || XZDASM_OPC ctx.opcode == 0x9A

/-- Effective absolute call target: for the relative near call, the
address immediately following the instruction plus the operand (64-bit
wraparound); for the absolute far-call encoding, the operand itself. -/
def callTargetOf (ctx : dasm_ctx_t) : Nat :=
  if XZDASM_OPC ctx.opcode = 0xE8 then
    (ctx.first_instruction + ctx.instruction_size + ctx.operand) % 2 ^ 64
  else ctx.operand

/-- Opcode-class test for LEA (raw opcode `8D`). -/
def isLeaOpcode (ctx : dasm_ctx_t) : Bool := XZDASM_OPC ctx.opcode == 0x8D

/-- Generic scan loop shared by the call and LEA searches: decode at the
cursor, return the first instruction satisfying `pred`, advance by the
decoded length otherwise, and give up on decode failure or when the
cursor reaches the window end. -/
def scanGo (mem : Nat → Nat) (e : Nat) (pred : dasm_ctx_t → Bool) :
    Nat → Nat → Option dasm_ctx_t
  | 0, _ => none
  | fuel + 1, pos =>
    if e ≤ pos then none
    else
      match x86_dasm mem pos e with
      | none => none
      | some ctx =>
        if pred ctx then some ctx
        else scanGo mem e pred fuel (pos + ctx.instruction_size)

/-- Modelled from the spec: `find_call_instruction` (extern in `xzre.h`),
spec.md §4.2 — `call_target = 0` is the wildcard sentinel. -/
def find_call_instruction (mem : Nat → Nat)
    (code_start code_end call_target : Nat) : Option dasm_ctx_t :=
  scanGo mem code_end
    (fun ctx => isCallOpcode ctx &&
      (call_target == 0 || callTargetOf ctx == call_target))
    (code_end - code_start) code_start

/-- Modelled from the spec: `find_lea_instruction` (extern in `xzre.h`),
spec.md §4.3 — matches LEA with indirect-with-displacement ModRM mode
and the requested displacement; returns only a boolean. -/
def find_lea_instruction (mem : Nat → Nat)
    (code_start code_end displacement : Nat) : Bool :=
  (scanGo mem code_end
    (fun ctx => isLeaOpcode ctx &&
      (ctx.modrm_mod == MRM_I_DISP1 || ctx.modrm_mod == MRM_I_DISP4) &&
      ctx.mem_disp == displacement)
    (code_end - code_start) code_start).isSome

/-- Byte-wise test for the 4-byte `endbr64` landing-pad marker
`F3 0F 1E FA` fully inside the window. -/
def isEndbr64At (mem : Nat → Nat) (pos e : Nat) : Bool :=
  decide (pos + 4 ≤ e) && mem pos % 256 == 0xF3 &&
  mem (pos + 1) % 256 == 0x0F && mem (pos + 2) % 256 == 0x1E &&
  mem (pos + 3) % 256 == 0xFA

/-- Byte-wise scan for the landing-pad marker. -/
def endbrScan (mem : Nat → Nat) (e : Nat) : Nat → Nat → Option Nat
  | 0, _ => none
  | fuel + 1, pos =>
    if e ≤ pos then none
    else if isEndbr64At mem pos e then some pos
    else endbrScan mem e fuel (pos + 1)

/-- Skip a run of single-byte NOP padding; succeed with the address
immediately after the run, fail if the run reaches the window end. -/
def nopSkip (mem : Nat → Nat) (e : Nat) : Nat → Nat → Option Nat
  | 0, _ => none
  | fuel + 1, pos =>
    if e ≤ pos then none
    else if mem pos % 256 == 0x90 then nopSkip mem e fuel (pos + 1)
    else some pos

/-- Find a run of NOP padding and return the address right after it. -/
def nopScan (mem : Nat → Nat) (e : Nat) : Nat → Nat → Option Nat
  | 0, _ => none
  | fuel + 1, pos =>
    if e ≤ pos then none
    else if mem pos % 256 == 0x90 then nopSkip mem e (e - (pos + 1)) (pos + 1)
    else nopScan mem e fuel (pos + 1)

/-- Modelled from the spec: `find_function_prologue` (extern in
`xzre.h`), spec.md §4.4 — the C routine writes `*output` only on
success, so it is modelled as taking the output cell's current value and
returning the pair (found flag, output cell's new value). -/
def find_function_prologue (mem : Nat → Nat)
    (code_start code_end output : Nat) : FuncFindType → Bool × Nat
  | .FIND_ENDBR64 =>
    match endbrScan mem code_end (code_end - code_start) code_start with
    | some p => (true, p)
    | none => (false, output)
  | .FIND_NOP =>
    match nopScan mem code_end (code_end - code_start) code_start with
    | some p => (true, p)
    | none => (false, output)

/-- Per-entry test of the segment check: loadable, flags equal, and the
queried half-open range contained in `[p_vaddr, p_vaddr + p_memsz)`. -/
def segmentMatches (ph : Elf64_Phdr) (vaddr size p_flags : Nat) : Bool :=
  ph.p_type == PT_LOAD && ph.p_flags == p_flags &&
  decide (ph.p_vaddr ≤ vaddr) &&
  decide (vaddr + size ≤ ph.p_vaddr + ph.p_memsz)

/-- Modelled from the spec: `elf_contains_segment` (extern in `xzre.h`),
spec.md §4.5 — first containing, flag-matching loadable segment wins;
`step` controls stride/direction, whose semantics the spec leaves open
with forward stride 1 as the stated default, which is what `List.any`
realizes. -/
def elf_contains_segment (elf_info : elf_info_t)
    (vaddr size : Nat) (p_flags : Nat) (step : Int) : Bool :=
  elf_info.phdrs.any fun ph => segmentMatches ph vaddr size p_flags

/-! ## Scanner soundness -/

/-- Any instruction a scan returns satisfies the scan predicate and was
decoded at some position at or after the scan start, over the same
window end. -/
theorem scanGo_sound {mem : Nat → Nat} {e : Nat} {pred : dasm_ctx_t → Bool} :
    ∀ fuel pos ctx, scanGo mem e pred fuel pos = some ctx →
      pred ctx = true ∧ ∃ p, pos ≤ p ∧ x86_dasm mem p e = some ctx := by
  intro fuel
  induction fuel with
  | zero =>
    intro pos ctx h
    simp [scanGo] at h
  | succ k ih =>
    intro pos ctx h
    simp only [scanGo] at h
    split at h
    · exact absurd h (by simp)
    · split at h
      · exact absurd h (by simp)
      · rename_i c hd
        split at h
        · rename_i hpred
          injection h with h
          subst h
          exact ⟨hpred, pos, le_rfl, hd⟩
        · obtain ⟨hpred, p, hp, hdec⟩ := ih _ _ h
          exact ⟨hpred, p, by omega, hdec⟩

/-- Soundness of the call search: a returned instruction is a call, its
effective target matches unless the wildcard sentinel was passed, and it
was decoded within the searched range. -/
theorem find_call_sound {mem : Nat → Nat} {s e target : Nat}
    {ctx : dasm_ctx_t} (h : find_call_instruction mem s e target = some ctx) :
    isCallOpcode ctx = true ∧ (target = 0 ∨ callTargetOf ctx = target) ∧
    ∃ p, s ≤ p ∧ x86_dasm mem p e = some ctx := by
  unfold find_call_instruction at h
  obtain ⟨hpred, p, hp, hdec⟩ := scanGo_sound _ _ _ h
  simp only [Bool.and_eq_true, Bool.or_eq_true, beq_iff_eq] at hpred
  exact ⟨hpred.1, hpred.2, p, hp, hdec⟩

/-- Soundness of the LEA search: a `true` answer means some instruction
in range decodes as LEA with indirect-with-displacement addressing and
the requested displacement. -/
theorem find_lea_sound {mem : Nat → Nat} {s e disp : Nat}
    (h : find_lea_instruction mem s e disp = true) :
    ∃ p ctx, s ≤ p ∧ x86_dasm mem p e = some ctx ∧
      isLeaOpcode ctx = true ∧
      (ctx.modrm_mod = MRM_I_DISP1 ∨ ctx.modrm_mod = MRM_I_DISP4) ∧
      ctx.mem_disp = disp := by
  unfold find_lea_instruction at h
  rw [Option.isSome_iff_exists] at h
  obtain ⟨ctx, hctx⟩ := h
  obtain ⟨hpred, p, hp, hdec⟩ := scanGo_sound _ _ _ hctx
  simp only [Bool.and_eq_true, Bool.or_eq_true, beq_iff_eq] at hpred
  exact ⟨p, ctx, hp, hdec, hpred.1.1, hpred.1.2, hpred.2⟩

/-! ## Demonstration inputs for the concrete parts of the claims -/

/-- A 5-byte buffer holding a single relative near call `E8 10 00 00 00`
(effective target `0x15` when based at address 0). -/
def memCall : Nat → Nat := fun p => [0xE8, 0x10, 0, 0, 0].getD p 0

/-- `memCall` with every byte at or beyond offset 5 replaced. -/
def memCall' : Nat → Nat := fun p => if p < 5 then memCall p else 0xAB

/-- A 3-byte buffer holding `lea ecx, [rax + 0x12]`
(`8D 48 12`: ModRM `0x48`, 1-byte displacement `0x12`). -/
def memLea : Nat → Nat := fun p => [0x8D, 0x48, 0x12].getD p 0

/-- The decoded state of the call in `memCall` at window `[0, 5)`. -/
def ctxCallDemo : dasm_ctx_t := ⟨0, 5, 0, 0, 0, 0, 0, 0, 0x168, 0, 0x10, 0⟩

/-- The decoded state of the LEA in `memLea` at window `[0, 3)`. -/
def ctxLeaDemo : dasm_ctx_t := ⟨0, 3, 0, 0, 0x48, 1, 1, 0, 0x10D, 0x12, 0, 0⟩

/-- A loadable demo program header: `PT_LOAD`, flags `5` (r-x),
vaddr `0x1000`, memsz `0x2000`. -/
def phDemo : Elf64_Phdr := ⟨1, 5, 0x1000, 0x2000⟩

/-- A demo ELF image descriptor whose table holds only `phDemo`. -/
def infoDemo : elf_info_t := ⟨0x1000, [phDemo]⟩

/-! ## The claims -/

/-- Claim C1: for every buffer `[code_start, code_end)` and every cursor
position within it, a decode call (`x86_dasm`) never reads memory at or
beyond `code_end` — its outcome is invariant under changing memory
outside the window — and for any valid instruction truncated at any byte
offset, decoding the truncated buffer fails gracefully rather than
over-reading. -/
theorem C1_decode_bounds_safety :
    (∀ (mem₁ mem₂ : Nat → Nat) (s e : Nat),
        (∀ p, s ≤ p → p < e → mem₁ p = mem₂ p) →
        x86_dasm mem₁ s e = x86_dasm mem₂ s e) ∧
    (∀ (mem : Nat → Nat) (s e : Nat) (ctx : dasm_ctx_t),
        x86_dasm mem s e = some ctx →
        ∀ k, k < s + ctx.instruction_size → x86_dasm mem s k = none) := by
  constructor
  · intro mem₁ mem₂ s e h
    exact x86_dasm_frame h
  · intro mem s e ctx h k hk
    by_contra hne
    obtain ⟨c, hc⟩ := Option.ne_none_iff_exists'.mp hne
    have hspec := x86_dasm_spec h
    have hspec' := x86_dasm_spec hc
    have hke : k ≤ e := by
      have := hspec.2.2.1
      omega
    have hmono := x86_dasm_mono hke hc
    rw [h] at hmono
    injection hmono with hmono
    subst hmono
    have := hspec'.2.2.1
    omega

/-- Witness for C1 at the concrete call buffer: agreement inside the
window forces equal decodes, and truncating the 5-byte call to 4 bytes
makes the decode fail. -/
theorem C1_decode_bounds_safety_witness :
    x86_dasm memCall 0 5 = x86_dasm memCall' 0 5 ∧
    x86_dasm memCall 0 4 = none :=
  ⟨C1_decode_bounds_safety.1 memCall memCall' 0 5
      (fun p _ hp => by simp [memCall', hp]),
    C1_decode_bounds_safety.2 memCall 0 5 ctxCallDemo (by decide) 4 (by decide)⟩

/-- Claim C2: `find_call_instruction` returns an instruction only when it
is a call whose effective absolute target matches (or the null sentinel
`0` was passed), decoded within the searched range; and on the concrete
call buffer the exact target is found while the off-by-one target is
not. -/
theorem C2_find_call_matching :
    (∀ (mem : Nat → Nat) (s e target : Nat) (ctx : dasm_ctx_t),
        find_call_instruction mem s e target = some ctx →
        isCallOpcode ctx = true ∧ (target = 0 ∨ callTargetOf ctx = target) ∧
        ∃ p, s ≤ p ∧ x86_dasm mem p e = some ctx) ∧
    find_call_instruction memCall 0 5 0x15 = some ctxCallDemo ∧
    find_call_instruction memCall 0 5 0x16 = none ∧
    find_call_instruction memCall 0 5 0 = some ctxCallDemo := by
  refine ⟨?_, by decide, by decide, by decide⟩
  intro mem s e target ctx h
  exact find_call_sound h

/-- Witness for C2: the soundness part applied at the concrete call
buffer with the exact target `0x15`. -/
theorem C2_find_call_matching_witness :
    isCallOpcode ctxCallDemo = true ∧
    (0x15 = 0 ∨ callTargetOf ctxCallDemo = 0x15) ∧
    ∃ p, 0 ≤ p ∧ x86_dasm memCall p 5 = some ctxCallDemo :=
  C2_find_call_matching.1 memCall 0 5 0x15 ctxCallDemo (by decide)

/-- Claim C3: `elf_contains_segment` is true iff some loadable program
header with matching protection flags contains the queried half-open
range; a query exactly equal to a segment's bounds matches, and a query
exceeding the segment's end by one byte does not. -/
theorem C3_segment_containment :
    (∀ (info : elf_info_t) (vaddr size p_flags : Nat) (st : Int),
        elf_contains_segment info vaddr size p_flags st = true ↔
        ∃ ph ∈ info.phdrs, ph.p_type = PT_LOAD ∧ ph.p_flags = p_flags ∧
          ph.p_vaddr ≤ vaddr ∧ vaddr + size ≤ ph.p_vaddr + ph.p_memsz) ∧
    (∀ ph : Elf64_Phdr, ph.p_type = PT_LOAD →
        segmentMatches ph ph.p_vaddr ph.p_memsz ph.p_flags = true) ∧
    ∀ ph : Elf64_Phdr,
      segmentMatches ph ph.p_vaddr (ph.p_memsz + 1) ph.p_flags = false := by
  refine ⟨?_, ?_, ?_⟩
  · intro info vaddr size p_flags st
    unfold elf_contains_segment
    rw [List.any_eq_true]
    simp only [segmentMatches, Bool.and_eq_true, beq_iff_eq,
      decide_eq_true_eq, and_assoc]
  · intro ph h
    simp [segmentMatches, h]
  · intro ph
    have hd : decide (ph.p_vaddr + (ph.p_memsz + 1) ≤
        ph.p_vaddr + ph.p_memsz) = false := by
      simp only [decide_eq_false_iff_not]
      omega
    simp [segmentMatches, hd]

/-- Witness for C3 at the concrete one-segment image: exact bounds
match, one byte past the end does not, and the full query is answered
through the table. -/
theorem C3_segment_containment_witness :
    segmentMatches phDemo phDemo.p_vaddr phDemo.p_memsz phDemo.p_flags = true ∧
    segmentMatches phDemo phDemo.p_vaddr (phDemo.p_memsz + 1) phDemo.p_flags
      = false ∧
    elf_contains_segment infoDemo 0x1000 0x2000 5 1 = true :=
  ⟨C3_segment_containment.2.1 phDemo (by decide),
    C3_segment_containment.2.2 phDemo,
    (C3_segment_containment.1 infoDemo 0x1000 0x2000 5 1).mpr
      ⟨phDemo, by decide, by decide, by decide, by decide, by decide⟩⟩

/-- Claim C4: whenever the call scanner returns an instruction, its byte
range `[start, start + length)` lies fully within the searched
`[start, end)`; and every successful decode has `length > 0` and
`start + length ≤ bufferEnd`. -/
theorem C4_scan_containment :
    (∀ (mem : Nat → Nat) (s e target : Nat) (ctx : dasm_ctx_t),
        find_call_instruction mem s e target = some ctx →
        s ≤ ctx.first_instruction ∧
        ctx.first_instruction + ctx.instruction_size ≤ e) ∧
    (∀ (mem : Nat → Nat) (s e : Nat) (ctx : dasm_ctx_t),
        x86_dasm mem s e = some ctx →
        0 < ctx.instruction_size ∧ s + ctx.instruction_size ≤ e) := by
  constructor
  · intro mem s e target ctx h
    obtain ⟨_, _, p, hp, hdec⟩ := find_call_sound h
    obtain ⟨h1, h2, h3, _⟩ := x86_dasm_spec hdec
    rw [h1]
    exact ⟨hp, h3⟩
  · intro mem s e ctx h
    obtain ⟨_, h2, h3, _⟩ := x86_dasm_spec h
    exact ⟨h2, h3⟩

/-- Witness for C4 at the concrete call buffer. -/
theorem C4_scan_containment_witness :
    0 ≤ ctxCallDemo.first_instruction ∧
    ctxCallDemo.first_instruction + ctxCallDemo.instruction_size ≤ 5 :=
  C4_scan_containment.1 memCall 0 5 0 ctxCallDemo (by decide)

/-- Claim C5: the decoder's decomposed ModRM fields are always
consistent with the stored ModRM byte — `mod = b >> 6`,
`reg = (b >> 3) & 7`, `rm = b & 7` — and the stored byte is a byte
value (so the fact is exhaustively checkable over all 256 values). -/
theorem C5_modrm_decomposition :
    ∀ (mem : Nat → Nat) (s e : Nat) (ctx : dasm_ctx_t),
      x86_dasm mem s e = some ctx →
      ctx.modrm < 256 ∧ ctx.modrm_mod = ctx.modrm >>> 6 ∧
      ctx.modrm_reg = (ctx.modrm >>> 3) &&& 7 ∧
      ctx.modrm_rm = ctx.modrm &&& 7 := by
  intro mem s e ctx h
  obtain ⟨_, _, _, hmod, hreg, hrm, hlt, _⟩ := x86_dasm_spec h
  have hb : ∀ b, b < 256 →
      b / 64 = b >>> 6 ∧ b / 8 % 8 = (b >>> 3) &&& 7 ∧ b % 8 = b &&& 7 := by
    intro b _
    refine ⟨?_, ?_, ?_⟩
    · rw [Nat.shiftRight_eq_div_pow]
    · rw [Nat.shiftRight_eq_div_pow]
      rw [show (7 : Nat) = 2 ^ 3 - 1 by norm_num, Nat.and_pow_two_sub_one_eq_mod]
    · rw [show (7 : Nat) = 2 ^ 3 - 1 by norm_num, Nat.and_pow_two_sub_one_eq_mod]
  obtain ⟨e1, e2, e3⟩ := hb ctx.modrm hlt
  exact ⟨hlt, by rw [hmod, e1], by rw [hreg, e2], by rw [hrm, e3]⟩

/-- Witness for C5 at the concrete LEA buffer (ModRM byte `0x48`). -/
theorem C5_modrm_decomposition_witness :
    ctxLeaDemo.modrm < 256 ∧ ctxLeaDemo.modrm_mod = ctxLeaDemo.modrm >>> 6 ∧
    ctxLeaDemo.modrm_reg = (ctxLeaDemo.modrm >>> 3) &&& 7 ∧
    ctxLeaDemo.modrm_rm = ctxLeaDemo.modrm &&& 7 :=
  C5_modrm_decomposition memLea 0 3 ctxLeaDemo (by decide)

/-- Claim C6: `find_lea_instruction` answers true only when an LEA
instruction with indirect-with-displacement ModRM mode (`MRM_I_DISP1` or
`MRM_I_DISP4`) and the requested decoded displacement is found in range;
it returns only a boolean (its result type), and on the concrete LEA
buffer the exact displacement is found while an off-by-one one is not. -/
theorem C6_find_lea_matching :
    (∀ (mem : Nat → Nat) (s e disp : Nat),
        find_lea_instruction mem s e disp = true →
        ∃ p ctx, s ≤ p ∧ x86_dasm mem p e = some ctx ∧
          isLeaOpcode ctx = true ∧
          (ctx.modrm_mod = MRM_I_DISP1 ∨ ctx.modrm_mod = MRM_I_DISP4) ∧
          ctx.mem_disp = disp) ∧
    find_lea_instruction memLea 0 3 0x12 = true ∧
    find_lea_instruction memLea 0 3 0x13 = false := by
  refine ⟨?_, by decide, by decide⟩
  intro mem s e disp h
  exact find_lea_sound h

/-- Witness for C6: the soundness part applied at the concrete LEA
buffer with displacement `0x12`. -/
theorem C6_find_lea_matching_witness :
    ∃ p ctx, 0 ≤ p ∧ x86_dasm memLea p 3 = some ctx ∧
      isLeaOpcode ctx = true ∧
      (ctx.modrm_mod = MRM_I_DISP1 ∨ ctx.modrm_mod = MRM_I_DISP4) ∧
      ctx.mem_disp = 0x12 :=
  C6_find_lea_matching.1 memLea 0 3 0x12 (by decide)

/-- Claim C7: the stored opcode is the instruction's primary opcode byte
plus the fixed uniform bias `+0x80`, and the `XZDASM_OPC` normalization
(`op - 0x80`, from `xzre.h`) recovers the raw opcode byte — so a caller
using the same normalization agrees with the decoder. -/
theorem C7_opcode_bias :
    (∀ (mem : Nat → Nat) (s e : Nat) (ctx : dasm_ctx_t),
        x86_dasm mem s e = some ctx →
        0x80 ≤ ctx.opcode ∧
        ctx.opcode = mem (s + ctx.insn_offset) % 256 + 0x80 ∧
        XZDASM_OPC ctx.opcode = mem (s + ctx.insn_offset) % 256) ∧
    ∀ op : Nat, XZDASM_OPC (op + 0x80) = op := by
  constructor
  · intro mem s e ctx h
    obtain ⟨_, _, _, _, _, _, _, opPos, hs, _, hoff, hopc⟩ := x86_dasm_spec h
    have hpos : s + ctx.insn_offset = opPos := by omega
    rw [hpos, hopc]
    refine ⟨by omega, rfl, ?_⟩
    simp [XZDASM_OPC]
  · intro op
    simp [XZDASM_OPC]

/-- Witness for C7 at the concrete LEA buffer. -/
theorem C7_opcode_bias_witness :
    0x80 ≤ ctxLeaDemo.opcode ∧
    ctxLeaDemo.opcode = memLea (0 + ctxLeaDemo.insn_offset) % 256 + 0x80 ∧
    XZDASM_OPC ctxLeaDemo.opcode = memLea (0 + ctxLeaDemo.insn_offset) % 256 :=
  C7_opcode_bias.1 memLea 0 3 ctxLeaDemo (by decide)

/-- Claim C8: whenever `find_function_prologue` finds no matching
pattern it returns false and leaves the caller's output cell unchanged,
in every mode. -/
theorem C8_prologue_output_frame :
    ∀ (mem : Nat → Nat) (s e out : Nat) (mode : FuncFindType),
      (find_function_prologue mem s e out mode).1 = false →
      (find_function_prologue mem s e out mode).2 = out := by
  intro mem s e out mode h
  cases mode with
  | FIND_ENDBR64 =>
    simp only [find_function_prologue] at h ⊢
    cases h1 : endbrScan mem e (e - s) s with
    | none => rfl
    | some p => rw [h1] at h; simp at h
  | FIND_NOP =>
    simp only [find_function_prologue] at h ⊢
    cases h1 : nopScan mem e (e - s) s with
    | none => rfl
    | some p => rw [h1] at h; simp at h

/-- Witness for C8: the empty window finds nothing and leaves the
output value `42` untouched, in both modes. -/
theorem C8_prologue_output_frame_witness :
    (find_function_prologue (fun _ => 0) 0 0 42 .FIND_ENDBR64).2 = 42 ∧
    (find_function_prologue (fun _ => 0) 0 0 42 .FIND_NOP).2 = 42 :=
  ⟨C8_prologue_output_frame (fun _ => 0) 0 0 42 .FIND_ENDBR64 (by decide),
    C8_prologue_output_frame (fun _ => 0) 0 0 42 .FIND_NOP (by decide)⟩

/-- Claim C9: decode fails immediately whenever
`bufferStart ≥ bufferEnd` (empty or inverted range) — and, the decoder
returning no state at all on failure, no decoded field is available
after a failed decode. -/
theorem C9_decode_empty_range :
    ∀ (mem : Nat → Nat) (s e : Nat), e ≤ s → x86_dasm mem s e = none := by
  intro mem s e h
  unfold x86_dasm
  have h0 : e - s = 0 := by omega
  rw [h0]
  rfl

/-- Witness for C9 at a concrete inverted range. -/
theorem C9_decode_empty_range_witness :
    x86_dasm (fun _ => 0x90) 5 3 = none :=
  C9_decode_empty_range (fun _ => 0x90) 5 3 (by decide)

/-- Claim C10: the packed `dasm_ctx_t` layout is exactly 128 bytes with
the header's asserted field offsets (`first_instruction` at 0,
`instruction_size` at 8, `flags` at 0x10, `rex_byte` at 0x1B, `modrm`
at 0x1C, mod/reg/rm at 0x1D–0x1F, `opcode` at 0x28, `mem_disp` at 0x30,
`operand` at 0x38, `insn_offset` at 0x50) — a fixed property of the
type every operation shares. -/
theorem C10_dasm_ctx_layout :
    layoutSize dasmCtxFields = 128 ∧
    layoutOffset dasmCtxFields "first_instruction" = some 0 ∧
    layoutOffset dasmCtxFields "instruction_size" = some 8 ∧
    layoutOffset dasmCtxFields "flags" = some 0x10 ∧
    layoutOffset dasmCtxFields "rex_byte" = some 0x1B ∧
    layoutOffset dasmCtxFields "modrm" = some 0x1C ∧
    layoutOffset dasmCtxFields "modrm_mod" = some 0x1D ∧
    layoutOffset dasmCtxFields "modrm_reg" = some 0x1E ∧
    layoutOffset dasmCtxFields "modrm_rm" = some 0x1F ∧
    layoutOffset dasmCtxFields "opcode" = some 0x28 ∧
    layoutOffset dasmCtxFields "mem_disp" = some 0x30 ∧
    layoutOffset dasmCtxFields "operand" = some 0x38 ∧
    layoutOffset dasmCtxFields "insn_offset" = some 0x50 := by
  decide

end Xzre
